import Mathlib

/-!
Verification of `basic-config` (`src/BasicConfigStore.js`), a dot-path-addressed
in-process configuration store with synchronous observer notification.

The JavaScript source is shallowly embedded: JS values become the inductive
`JSVal`, JS objects become insertion-ordered association lists of own
properties, and the mutating traversal of `getParentObject` is threaded as a
pure state-passing function.  Modelling conventions (each noted at the
definition it concerns):

* Object identity/aliasing is modelled structurally: values are compared and
  stored as trees, which matches the source for every property proved here
  (the API never hands out an internal reference that a claim then mutates).
* Property reads on primitives (`bool`, `num`, `str`) yield `undefined`; the
  host prototype chain (e.g. `"x".length`) is not modelled.
* The module runs in strict mode (`'use strict'`, line 1), so creating or
  assigning a property on a primitive, and reading a property of
  `undefined`/`null`, throw `TypeError`; this is modelled with `Except JSErr`.
  The tree state at the moment a `TypeError` escapes is not modelled (no
  claim observes a store after a throw).
* Observer handlers are arbitrary JS functions; they are modelled as an
  identity plus a list of store re-entrant actions (`unobserveConfig` calls),
  which is the handler behaviour the spec's re-entrancy properties quantify
  over.
* The random instance identifier `_id` (from `createRandomString`) is
  modelled as a `Nat` parameter of `createConfig`, assumed fresh; the
  `'bc' + _id` side table stashed on observer objects becomes an explicit
  heap keyed by observer identity and store identifier.
-/

namespace BasicConfig

/-- A JavaScript value: `undefined`, `null`, booleans, numbers, strings, or an
object given by its insertion-ordered own properties.  Numbers are modelled as
`Int`; no claim depends on fractional or `NaN` arithmetic on stored values. -/
inductive JSVal where
  | undefined
  | jsNull
  | bool (b : Bool)
  | num (n : Int)
  | str (s : String)
  | obj (fields : List (String × JSVal))

/-- The only error the embedded fragment can raise: a strict-mode
`TypeError`. -/
inductive JSErr where
  | typeError
deriving DecidableEq

/-- Own-property lookup in a JS object, first match wins (objects built by the
store never hold duplicate keys, but user-supplied values may).  Generic in
the key type: the store tree and registry are keyed by strings, the observer
side tables also by identities. -/
def alookup {κ β : Type} [DecidableEq κ] : List (κ × β) → κ → Option β
  | [], _ => none
  | (k, v) :: r, k' => if k' = k then some v else alookup r k'

/-- Own-property assignment `o[k] = v`: overwrite in place if the key exists
(JS keeps the original insertion position), else append (JS appends new keys
in insertion order). -/
def astore {κ β : Type} [DecidableEq κ] : List (κ × β) → κ → β → List (κ × β)
  | [], k, v => [(k, v)]
  | (k0, v0) :: r, k, v => if k0 = k then (k, v) :: r else (k0, v0) :: astore r k v

/-- JS `ToBoolean` on the modelled values: `undefined`, `null`, `false`, `0`
and `""` are falsy, everything else (all objects included) is truthy. -/
def jsTruthy : JSVal → Bool
  | .undefined => false
  | .jsNull => false
  | .bool b => b
  | .num n => n != 0
  | .str s => s != ""
  | .obj _ => true

/-- Property read `v[k]`: throws on `undefined`/`null`, looks up own
properties on objects (absent gives `undefined`), and gives `undefined` on
the remaining primitives (prototype chain not modelled). -/
def getFieldE : JSVal → String → Except JSErr JSVal
  | .undefined, _ => .error .typeError
  | .jsNull, _ => .error .typeError
  | .obj fs, k => .ok ((alookup fs k).getD .undefined)
  | .bool _, _ => .ok .undefined
  | .num _, _ => .ok .undefined
  | .str _, _ => .ok .undefined

/-- Property write `v[k] = x` in strict mode: updates objects, throws a
`TypeError` on every non-object receiver. -/
def setFieldE : JSVal → String → JSVal → Except JSErr JSVal
  | .obj fs, k, v => .ok (.obj (astore fs k v))
  | .undefined, _, _ => .error .typeError
  | .jsNull, _, _ => .error .typeError
  | .bool _, _, _ => .error .typeError
  | .num _, _, _ => .error .typeError
  | .str _, _, _ => .error .typeError

/-- `path.split('.')` over the string's characters (the separator `_separator`
is the single character dot).  `""` splits to `[""]`, `"a."` to
`["a", ""]`, exactly as in JS. -/
def splitSegs : List Char → List String
  | [] => [""]
  | c :: rest =>
    if c = '.' then "" :: splitSegs rest
    else
      match splitSegs rest with
      | [] => [String.mk [c]]
      | s :: ss => String.mk (c :: s.data) :: ss

/-- `path.split(_separator)` from the source. -/
def pathSegs (path : String) : List String :=
  splitSegs path.data

/-- Truthiness of `path.match(_pattern)` where `_pattern` is the regex for a
single dot: the match succeeds exactly when the path contains a dot. -/
def hasSep (path : String) : Bool :=
  path.data.any (fun c => c == '.')

/-- `getPropertyName` (source lines 28-42): the last segment when the path
contains the separator, otherwise the whole path. -/
def getPropertyName (path : String) : String :=
  if hasSep path then (pathSegs path).getLastD "" else path

/-- The segments the `every` loop of `getParentObject` (source lines 50-71)
actually traverses: indices `0 .. lastIndex - 1`, i.e. all but the last
segment, and nothing at all when the path has no separator. -/
def parentSegs (path : String) : List String :=
  if hasSep path then (pathSegs path).dropLast else []

/-- `getParentObject` fused with the final read `_parent[_name]` of
`getConfigProperty` (source lines 185-192).  Each traversal step is
`_obj = _obj[name] || (_obj[name] = {})`: descend when the current field is
truthy, otherwise assign a fresh empty object (mutating the tree — also on
reads) and descend into it.  Returns the updated tree together with the value
read at the final key. -/
def getParentThenRead : JSVal → List String → String → Except JSErr (JSVal × JSVal)
  | v, [], name =>
    match getFieldE v name with
    | .error e => .error e
    | .ok r => .ok (v, r)
  | v, s :: rest, name =>
    match getFieldE v s with
    | .error e => .error e
    | .ok c =>
      if jsTruthy c then
        match getParentThenRead c rest name with
        | .error e => .error e
        | .ok (c', r) =>
          match setFieldE v s c' with
          | .error e => .error e
          | .ok v' => .ok (v', r)
      else
        match setFieldE v s (.obj []) with
        | .error e => .error e
        | .ok v1 =>
          match getParentThenRead (.obj []) rest name with
          | .error e => .error e
          | .ok (c', r) =>
            match setFieldE v1 s c' with
            | .error e => .error e
            | .ok v' => .ok (v', r)

/-- `getParentObject` fused with the final write `_parent[_name] = value` of
`setConfigProperty` (source lines 200-209); traversal steps are identical to
`getParentThenRead`.  Returns the updated tree. -/
def getParentThenWrite : JSVal → List String → String → JSVal → Except JSErr JSVal
  | v, [], name, value => setFieldE v name value
  | v, s :: rest, name, value =>
    match getFieldE v s with
    | .error e => .error e
    | .ok c =>
      if jsTruthy c then
        match getParentThenWrite c rest name value with
        | .error e => .error e
        | .ok c' => setFieldE v s c'
      else
        match setFieldE v s (.obj []) with
        | .error e => .error e
        | .ok v1 =>
          match getParentThenWrite (.obj []) rest name value with
          | .error e => .error e
          | .ok c' => setFieldE v1 s c'

/-- One re-entrant store call a handler may perform during its own
invocation; the spec's re-entrancy properties concern handlers that call
`unobserveConfig` from inside a notification. -/
inductive HandlerAct where
  | unobserve (o : Nat) (p : String)

/-- An observer handler: an identity (standing for the JS function object,
used to recognise its invocations in the call log) together with the store
calls its body performs when invoked. -/
structure Handler where
  hid : Nat
  acts : List HandlerAct

/-- One `BasicConfigStore` closure instance (source lines 8-18): the random
`_id` (modelled as a `Nat`, assumed fresh per instance), the `_data` tree and
the `_observerList` registry mapping full path strings to handler arrays. -/
structure Store where
  id : Nat
  data : JSVal
  observerList : List (String × List Handler)

/-- The `'bc' + _id` side tables the source stashes on observer objects:
observer identity to store identifier to observed path to recorded index.
A `none` index entry models the `NaN` written by `unobserveConfig` (and
`isNaN(undefined)` makes a missing entry behave the same). -/
def Heap : Type :=
  List (Nat × List (Nat × List (String × Option Nat)))

/-- A record passed to a handler: `{ property: path, value: value }`, tagged
with the identity of the handler that received it. -/
def CallRecord : Type :=
  Nat × String × JSVal

/-- `getObserverList` (source lines 79-82): the handler array for a path,
created empty in the registry on first access. -/
def getObserverList (s : Store) (p : String) : Store × List Handler :=
  match alookup s.observerList p with
  | some l => (s, l)
  | none => ({ s with observerList := astore s.observerList p [] }, [])

/-- `getObserverIndex` (source lines 93-98): read the recorded index from the
observer's side table for this store instance; both a missing table/entry
(`undefined`) and an invalidated entry (`NaN`) fail the source's `isNaN`
test and are `none` here. -/
def getObserverIndex (hp : Heap) (o : Nat) (sid : Nat) (p : String) : Option Nat :=
  match alookup hp o with
  | none => none
  | some tbls =>
    match alookup tbls sid with
    | none => none
    | some tbl =>
      match alookup tbl p with
      | none => none
      | some i => i

/-- `setObserverIndex` (source lines 108-113): write an index (or the `NaN`
invalidation, `none`) into the observer's side table for this store
instance, creating the table on first use. -/
def setObserverIndex (hp : Heap) (o : Nat) (sid : Nat) (p : String) (i : Option Nat) : Heap :=
  let tbls := (alookup hp o).getD []
  let tbl := (alookup tbls sid).getD []
  astore hp o (astore tbls sid (astore tbl p i))

/-- `unobserveConfig` (source lines 165-177): when a valid (non-`NaN`) index
is recorded for the observer and path, splice that slot out of the path's
handler array (a position at or past the end removes nothing, as with JS
`splice`) and invalidate the observer's own entry with `NaN`; otherwise do
nothing.  `getObserverList` still creates the (empty) handler array entry on
the lookup, as in the source. -/
def unobserveConfig (s : Store) (hp : Heap) (o : Nat) (p : String) : Store × Heap :=
  let s1 := (getObserverList s p).1
  let l := (getObserverList s p).2
  match getObserverIndex hp o s1.id p with
  | some i =>
    ({ s1 with observerList := astore s1.observerList p (l.eraseIdx i) },
      setObserverIndex hp o s1.id p none)
  | none => (s1, hp)

/-- Run one re-entrant store call from a handler body. -/
def runAct (st : Store × Heap) (a : HandlerAct) : Store × Heap :=
  match a with
  | .unobserve o p => unobserveConfig st.1 st.2 o p

/-- The `while (i--)` loop of `notify` (source lines 122-135) over the
snapshot `getObserverList(property).concat()`: the argument list is the
snapshot already reversed, so the head is the most recently registered
handler, which fires first.  Each handler invocation is logged as a
`CallRecord` and its body's re-entrant calls are applied to the live
state. -/
def notifyLoop : List Handler → Store → Heap → String → JSVal → Store × Heap × List CallRecord
  | [], s, hp, _, _ => (s, hp, [])
  | h :: rest, s, hp, p, v =>
    let st1 := h.acts.foldl runAct (s, hp)
    let nres := notifyLoop rest st1.1 st1.2 p v
    (nres.1, nres.2.1, (h.hid, p, v) :: nres.2.2)

/-- `notify` (source lines 122-135): only when the registry already holds an
array for the exact path (an empty array is truthy, so it still enters the
branch) iterate over a snapshot copy of that array in reverse registration
order. -/
def notify (s : Store) (hp : Heap) (p : String) (v : JSVal) : Store × Heap × List CallRecord :=
  match alookup s.observerList p with
  | none => (s, hp, [])
  | some l => notifyLoop l.reverse s hp p v

/-- `observeConfig` (source lines 144-156): fetch (creating if needed) the
path's handler array; when the observer has no valid recorded index for this
path (`isNaN`), push the handler and record its position, otherwise change
nothing. -/
def observeConfig (s : Store) (hp : Heap) (o : Nat) (p : String) (h : Handler) :
    Store × Heap :=
  let s1 := (getObserverList s p).1
  let l := (getObserverList s p).2
  match getObserverIndex hp o s1.id p with
  | none =>
    let l' := l ++ [h]
    ({ s1 with observerList := astore s1.observerList p l' },
      setObserverIndex hp o s1.id p (some (l'.length - 1)))
  | some _ => (s1, hp)

/-- `getConfigProperty` (source lines 185-192): resolve the parent through
the (mutating) traversal and read the final key.  Returns the store with the
possibly updated tree and the value read. -/
def getConfigProperty (s : Store) (p : String) : Except JSErr (Store × JSVal) :=
  match getParentThenRead s.data (parentSegs p) (getPropertyName p) with
  | .error e => .error e
  | .ok (d, r) => .ok ({ s with data := d }, r)

/-- `setConfigProperty` (source lines 200-209): resolve the parent, assign
the value at the final key, then synchronously `notify` observers of the
exact path.  Returns the updated store and heap together with the list of
handler invocations the write triggered. -/
def setConfigProperty (s : Store) (hp : Heap) (p : String) (v : JSVal) :
    Except JSErr (Store × Heap × List CallRecord) :=
  match getParentThenWrite s.data (parentSegs p) (getPropertyName p) v with
  | .error e => .error e
  | .ok d => .ok (notify { s with data := d } hp p v)

/-- `createConfig` (source lines 218-221) / the `BasicConfigStore` constructor
(source lines 8-18): a brand-new instance with an empty tree, an empty
registry and its instance identifier (the source's random `_id`, modelled as
a parameter assumed fresh).  The module's process-wide default instance
`var global = new BasicConfigStore()` is the same constructor applied at
startup. -/
def createConfig (sid : Nat) : Store :=
  { id := sid, data := .obj [], observerList := [] }

/-- One call against a store instance, for stating whole-API properties such
as instance isolation. -/
inductive Op where
  | get (p : String)
  | set (p : String) (v : JSVal)
  | obs (o : Nat) (p : String) (h : Handler)
  | unobs (o : Nat) (p : String)

/-- Apply one call.  A thrown `TypeError` propagates to the caller without a
result; for sequencing purposes the store value is kept as modelled (no claim
observes a store after a throw). -/
def applyOp (s : Store) (hp : Heap) : Op → Store × Heap × List CallRecord
  | .get p =>
    match getConfigProperty s p with
    | .ok (s', _) => (s', hp, [])
    | .error _ => (s, hp, [])
  | .set p v =>
    match setConfigProperty s hp p v with
    | .ok r => r
    | .error _ => (s, hp, [])
  | .obs o p h =>
    ((observeConfig s hp o p h).1, (observeConfig s hp o p h).2, [])
  | .unobs o p =>
    ((unobserveConfig s hp o p).1, (unobserveConfig s hp o p).2, [])

/-- Apply a sequence of calls, concatenating the notification logs. -/
def applyOps : Store → Heap → List Op → Store × Heap × List CallRecord
  | s, hp, [] => (s, hp, [])
  | s, hp, op :: rest =>
    let st1 := applyOp s hp op
    let st2 := applyOps st1.1 st1.2.1 rest
    (st2.1, st2.2.1, st1.2.2 ++ st2.2.2)

/-! ### Association list laws -/

theorem alookup_astore {κ β : Type} [DecidableEq κ] (l : List (κ × β)) (k : κ) (v : β)
    (k' : κ) : alookup (astore l k v) k' = if k' = k then some v else alookup l k' := by
  induction l with
  | nil => simp [alookup, astore]
  | cons kv r ih =>
    obtain ⟨k0, v0⟩ := kv
    by_cases h0 : k0 = k
    · subst h0
      by_cases h1 : k' = k0 <;> simp [alookup, astore, h1]
    · by_cases h1 : k' = k0
      · subst h1
        simp [alookup, astore, h0]
      · simp [alookup, astore, h0, h1, ih]

theorem alookup_astore_self {κ β : Type} [DecidableEq κ] (l : List (κ × β)) (k : κ)
    (v : β) : alookup (astore l k v) k = some v := by
  simp [alookup_astore]

theorem astore_astore {κ β : Type} [DecidableEq κ] (l : List (κ × β)) (k : κ) (a b : β) :
    astore (astore l k a) k b = astore l k b := by
  induction l with
  | nil => simp [astore]
  | cons kv r ih =>
    obtain ⟨k0, v0⟩ := kv
    by_cases h0 : k0 = k <;> simp [astore, h0, ih]

theorem astore_eq_self {κ β : Type} [DecidableEq κ] (l : List (κ × β)) (k : κ) (v : β)
    (h : alookup l k = some v) : astore l k v = l := by
  induction l with
  | nil => simp [alookup] at h
  | cons kv r ih =>
    obtain ⟨k0, v0⟩ := kv
    by_cases h0 : k = k0
    · subst h0
      simp [alookup] at h
      simp [astore, h]
    · have h0' : ¬k0 = k := fun hh => h0 hh.symm
      simp [alookup, h0] at h
      simp [astore, h0', ih h]

/-! ### Navigation laws -/

/-- A successful assignment determines an object at the root. -/
theorem setFieldE_ok_obj (v : JSVal) (k : String) (x w : JSVal)
    (h : setFieldE v k x = .ok w) : ∃ gs, w = .obj gs := by
  cases v <;> simp [setFieldE] at h
  exact ⟨_, h.symm⟩

/-- A successful parent-and-write traversal always produces an object at the
root: every exit path ends in a successful `setFieldE`. -/
theorem write_ok_obj (segs : List String) (v : JSVal) (name : String) (val w : JSVal)
    (h : getParentThenWrite v segs name val = .ok w) : ∃ gs, w = .obj gs := by
  cases segs with
  | nil => exact setFieldE_ok_obj _ _ _ _ h
  | cons s rest =>
    simp only [getParentThenWrite] at h
    split at h
    · simp at h
    · split at h
      · split at h
        · simp at h
        · exact setFieldE_ok_obj _ _ _ _ h
      · split at h
        · simp at h
        · split at h
          · simp at h
          · exact setFieldE_ok_obj _ _ _ _ h

/-- Writing through the tree and then reading the same path back yields the
written value, with the tree unchanged by the read: the read retraces exactly
the chain of objects the successful write just ensured. -/
theorem write_then_read (segs : List String) :
    ∀ (v : JSVal) (name : String) (val w : JSVal),
      getParentThenWrite v segs name val = .ok w →
      getParentThenRead w segs name = .ok (w, val) := by
  induction segs with
  | nil =>
    intro v name val w h
    cases v <;> simp [getParentThenWrite, setFieldE] at h
    subst h
    simp [getParentThenRead, getFieldE, alookup_astore_self]
  | cons s rest ih =>
    intro v name val w h
    simp only [getParentThenWrite] at h
    rcases hgc : getFieldE v s with e | c
    · rw [hgc] at h
      simp at h
    · rw [hgc] at h
      dsimp only at h
      by_cases htr : jsTruthy c = true
      · rw [if_pos htr] at h
        rcases hw' : getParentThenWrite c rest name val with e | c'
        · rw [hw'] at h
          simp at h
        · rw [hw'] at h
          dsimp only at h
          obtain ⟨gs, rfl⟩ := write_ok_obj rest c name val c' hw'
          have hr := ih c name val _ hw'
          cases v <;> simp [setFieldE] at h
          subst h
          simp [getParentThenRead, getFieldE, alookup_astore_self, jsTruthy, hr,
            setFieldE, astore_astore]
      · rw [if_neg htr] at h
        rcases hv1 : setFieldE v s (.obj []) with e | v1
        · rw [hv1] at h
          simp at h
        · rw [hv1] at h
          dsimp only at h
          rcases hw' : getParentThenWrite (.obj []) rest name val with e | c'
          · rw [hw'] at h
            simp at h
          · rw [hw'] at h
            dsimp only at h
            obtain ⟨gs, rfl⟩ := write_ok_obj rest _ name val c' hw'
            have hr := ih _ name val _ hw'
            cases v <;> simp [setFieldE] at hv1
            subst hv1
            simp [setFieldE] at h
            subst h
            simp [getParentThenRead, getFieldE, alookup_astore_self, jsTruthy, hr,
              setFieldE, astore_astore]

/-- Reading any path over a completely empty tree yields `undefined` without
throwing (intermediate objects get auto-created along the way). -/
theorem read_empty (segs : List String) :
    ∀ name, ∃ d, getParentThenRead (.obj []) segs name = .ok (d, .undefined) := by
  induction segs with
  | nil =>
    intro name
    exact ⟨.obj [], by simp [getParentThenRead, getFieldE, alookup]⟩
  | cons s rest ih =>
    intro name
    obtain ⟨d, hd⟩ := ih name
    refine ⟨.obj (astore [(s, .obj [])] s d), ?_⟩
    simp [getParentThenRead, getFieldE, alookup, jsTruthy, setFieldE, hd, astore]

/-! ### Store component preservation through observer operations -/

theorem getObserverList_id (s : Store) (p : String) : (getObserverList s p).1.id = s.id := by
  simp only [getObserverList]
  split <;> rfl

theorem getObserverList_data (s : Store) (p : String) :
    (getObserverList s p).1.data = s.data := by
  simp only [getObserverList]
  split <;> rfl

theorem unobserveConfig_id (s : Store) (hp : Heap) (o : Nat) (p : String) :
    (unobserveConfig s hp o p).1.id = s.id := by
  simp only [unobserveConfig]
  split <;> simp [getObserverList_id]

theorem unobserveConfig_data (s : Store) (hp : Heap) (o : Nat) (p : String) :
    (unobserveConfig s hp o p).1.data = s.data := by
  simp only [unobserveConfig]
  split <;> simp [getObserverList_data]

theorem runAct_id (st : Store × Heap) (a : HandlerAct) : (runAct st a).1.id = st.1.id := by
  cases a with
  | unobserve o p => exact unobserveConfig_id _ _ _ _

theorem runAct_data (st : Store × Heap) (a : HandlerAct) :
    (runAct st a).1.data = st.1.data := by
  cases a with
  | unobserve o p => exact unobserveConfig_data _ _ _ _

theorem foldl_runAct_id (acts : List HandlerAct) :
    ∀ st : Store × Heap, (acts.foldl runAct st).1.id = st.1.id := by
  induction acts with
  | nil => intro st; rfl
  | cons a rest ih =>
    intro st
    rw [List.foldl_cons, ih, runAct_id]

theorem foldl_runAct_data (acts : List HandlerAct) :
    ∀ st : Store × Heap, (acts.foldl runAct st).1.data = st.1.data := by
  induction acts with
  | nil => intro st; rfl
  | cons a rest ih =>
    intro st
    rw [List.foldl_cons, ih, runAct_data]

theorem notifyLoop_id (L : List Handler) :
    ∀ (s : Store) (hp : Heap) (p : String) (v : JSVal),
      (notifyLoop L s hp p v).1.id = s.id := by
  induction L with
  | nil => intros; rfl
  | cons h rest ih =>
    intro s hp p v
    simp only [notifyLoop]
    rw [ih, foldl_runAct_id]

theorem notifyLoop_data (L : List Handler) :
    ∀ (s : Store) (hp : Heap) (p : String) (v : JSVal),
      (notifyLoop L s hp p v).1.data = s.data := by
  induction L with
  | nil => intros; rfl
  | cons h rest ih =>
    intro s hp p v
    simp only [notifyLoop]
    rw [ih, foldl_runAct_data]

theorem notify_id (s : Store) (hp : Heap) (p : String) (v : JSVal) :
    (notify s hp p v).1.id = s.id := by
  simp only [notify]
  split
  · rfl
  · rw [notifyLoop_id]

theorem notify_data (s : Store) (hp : Heap) (p : String) (v : JSVal) :
    (notify s hp p v).1.data = s.data := by
  simp only [notify]
  split
  · rfl
  · rw [notifyLoop_data]

/-! ### The notification log -/

/-- Every handler of the snapshot is invoked, in snapshot order, with the
record `(property, value)`, regardless of what the handler bodies do to the
live registration state. -/
theorem notifyLoop_log (L : List Handler) :
    ∀ (s : Store) (hp : Heap) (p : String) (v : JSVal),
      (notifyLoop L s hp p v).2.2 = L.map (fun hh => (hh.hid, p, v)) := by
  induction L with
  | nil => intros; rfl
  | cons h rest ih =>
    intro s hp p v
    simp only [notifyLoop, List.map]
    rw [ih]

/-- The full log of one `notify`: the registered handler sequence for the
exact path, reversed (most recently registered first). -/
theorem notify_log (s : Store) (hp : Heap) (p : String) (v : JSVal) :
    (notify s hp p v).2.2 =
      ((alookup s.observerList p).getD []).reverse.map (fun hh => (hh.hid, p, v)) := by
  simp only [notify]
  split
  · next heq => simp [heq]
  · next l heq => rw [notifyLoop_log, heq]; rfl

/-- Decomposition of a successful `setConfigProperty`: the tree update
succeeded and the result is the notification of the updated store. -/
theorem set_ok_parts (s : Store) (hp : Heap) (p : String) (v : JSVal) (s' : Store)
    (hp' : Heap) (log : List CallRecord)
    (h : setConfigProperty s hp p v = .ok (s', hp', log)) :
    ∃ d, getParentThenWrite s.data (parentSegs p) (getPropertyName p) v = .ok d ∧
      (s', hp', log) = notify { s with data := d } hp p v := by
  simp only [setConfigProperty] at h
  split at h
  · simp at h
  · next d hd => exact ⟨d, hd, by simpa using h.symm⟩

/-! ### The observer index heap -/

/-- Reading an index after writing one: only the exact
(observer, instance, path) triple written is affected; in particular writes
for one store instance never disturb the tables of another instance. -/
theorem getObserverIndex_setObserverIndex (hp : Heap) (o sid : Nat) (p : String)
    (i : Option Nat) (o' sid' : Nat) (p' : String) :
    getObserverIndex (setObserverIndex hp o sid p i) o' sid' p' =
      if o' = o ∧ sid' = sid ∧ p' = p then i
      else getObserverIndex hp o' sid' p' := by
  by_cases ho : o' = o
  · subst ho
    cases halo : alookup hp o' with
    | none =>
      by_cases hs : sid' = sid
      · subst hs
        by_cases hq : p' = p
        · subst hq
          simp [getObserverIndex, setObserverIndex, halo, alookup_astore, alookup]
        · simp [getObserverIndex, setObserverIndex, halo, alookup_astore, alookup, hq]
      · simp [getObserverIndex, setObserverIndex, halo, alookup_astore, alookup, hs]
    | some tbls0 =>
      by_cases hs : sid' = sid
      · subst hs
        cases hals : alookup tbls0 sid' with
        | none =>
          by_cases hq : p' = p
          · subst hq
            simp [getObserverIndex, setObserverIndex, halo, hals, alookup_astore, alookup]
          · simp [getObserverIndex, setObserverIndex, halo, hals, alookup_astore, alookup,
              hq]
        | some tbl0 =>
          by_cases hq : p' = p
          · subst hq
            simp [getObserverIndex, setObserverIndex, halo, hals, alookup_astore, alookup]
          · simp [getObserverIndex, setObserverIndex, halo, hals, alookup_astore, alookup,
              hq]
      · simp [getObserverIndex, setObserverIndex, halo, alookup_astore, alookup, hs]
  · simp [getObserverIndex, setObserverIndex, alookup_astore, ho]

/-! ### Registration shapes -/

theorem getObserverList_some (s : Store) (p : String) (l : List Handler)
    (hl : alookup s.observerList p = some l) : getObserverList s p = (s, l) := by
  simp only [getObserverList, hl]

/-- `observeConfig` with no recorded index: append the handler and record its
position (the new length minus one). -/
theorem observeConfig_register (s : Store) (hp : Heap) (o : Nat) (p : String)
    (h : Handler) (l : List Handler) (hl : alookup s.observerList p = some l)
    (hi : getObserverIndex hp o s.id p = none) :
    observeConfig s hp o p h =
      ({ s with observerList := astore s.observerList p (l ++ [h]) },
        setObserverIndex hp o s.id p (some l.length)) := by
  simp only [observeConfig, getObserverList_some s p l hl]
  rw [hi]
  simp

/-- `observeConfig` with a recorded index: a strict no-op. -/
theorem observeConfig_noop (s : Store) (hp : Heap) (o : Nat) (p : String) (h : Handler)
    (l : List Handler) (i : Nat) (hl : alookup s.observerList p = some l)
    (hi : getObserverIndex hp o s.id p = some i) :
    observeConfig s hp o p h = (s, hp) := by
  simp only [observeConfig, getObserverList_some s p l hl]
  rw [hi]

/-- `unobserveConfig` with a recorded index: splice that position out of the
sequence and invalidate only this observer's entry. -/
theorem unobserveConfig_remove (s : Store) (hp : Heap) (o : Nat) (p : String)
    (l : List Handler) (i : Nat) (hl : alookup s.observerList p = some l)
    (hi : getObserverIndex hp o s.id p = some i) :
    unobserveConfig s hp o p =
      ({ s with observerList := astore s.observerList p (l.eraseIdx i) },
        setObserverIndex hp o s.id p none) := by
  simp only [unobserveConfig, getObserverList_some s p l hl]
  rw [hi]

/-! ### Counting helpers -/

theorem countP_eraseIdx {α : Type} (q : α → Bool) (l : List α) :
    ∀ (i : Nat) (a : α), l[i]? = some a →
      l.countP q = (l.eraseIdx i).countP q + (if q a then 1 else 0) := by
  induction l with
  | nil => intro i a h; simp at h
  | cons x r ih =>
    intro i a h
    cases i with
    | zero =>
      simp at h
      subst h
      simp [List.countP_cons]
    | succ j =>
      simp at h
      rw [List.eraseIdx_cons_succ, List.countP_cons, List.countP_cons, ih j a h]
      exact Nat.add_right_comm _ _ _

theorem countP_eraseIdx_zero {α : Type} (q : α → Bool) (l : List α) (i : Nat) (a : α)
    (hget : l[i]? = some a) (hq : q a = true) (hcount : l.countP q = 1) :
    (l.eraseIdx i).countP q = 0 := by
  have h := countP_eraseIdx q l i a hget
  rw [hcount, if_pos hq] at h
  omega

/-! ## Claim theorems -/

/-- **C1, counterexample.**  The claim says `getConfigProperty` never mutates
the store.  But on a fresh store, reading `"a.b"` auto-creates the missing
intermediate mapping `"a"`: the tree changes from `{}` to `{a: {}}`. -/
theorem getConfigProperty_mutates_on_read :
    (getConfigProperty (createConfig 0) "a.b").map (fun r => r.1.data) =
      .ok (.obj [("a", .obj [])]) ∧
    (createConfig 0).data = .obj [] ∧
    JSVal.obj [("a", .obj [])] ≠ .obj [] := by
  refine ⟨rfl, rfl, ?_⟩
  intro h
  injection h with h1
  exact List.noConfusion h1

/-- **C1, amended.**  A read of a path without the separator resolves the
parent to the root itself and leaves the store completely unchanged (reads of
multi-segment paths may instead auto-create missing intermediates, exactly as
the write traversal does). -/
theorem getConfigProperty_no_sep_pure (s : Store) (fs : List (String × JSVal))
    (p : String) (hdata : s.data = .obj fs) (hsep : hasSep p = false) :
    getConfigProperty s p = .ok (s, (alookup fs p).getD .undefined) := by
  have hps : parentSegs p = [] := by simp [parentSegs, hsep]
  have hpn : getPropertyName p = p := by simp [getPropertyName, hsep]
  simp only [getConfigProperty, hps, hpn, hdata]
  simp only [getParentThenRead, getFieldE]
  rw [← hdata]

/-- Witness for `getConfigProperty_no_sep_pure` at the fresh default store and
path `"a"`. -/
theorem getConfigProperty_no_sep_pure_witness :
    getConfigProperty (createConfig 0) "a" =
      .ok (createConfig 0, (alookup ([] : List (String × JSVal)) "a").getD .undefined) :=
  getConfigProperty_no_sep_pure (createConfig 0) [] "a" rfl rfl

/-- **C2.**  Whenever `setConfigProperty(p, v)` completes without throwing,
an immediately following `getConfigProperty(p)` returns exactly the stored
value `v` (value identity is modelled structurally), and the read leaves the
store in the state the write produced. -/
theorem set_then_get_returns_value (s : Store) (hp : Heap) (p : String) (v : JSVal)
    (s' : Store) (hp' : Heap) (log : List CallRecord)
    (h : setConfigProperty s hp p v = .ok (s', hp', log)) :
    getConfigProperty s' p = .ok (s', v) := by
  obtain ⟨d, hd, hnot⟩ := set_ok_parts s hp p v s' hp' log h
  have hs1 : s' = (notify { s with data := d } hp p v).1 := by rw [← hnot]
  have hdata : s'.data = d := by rw [hs1, notify_data]
  have hr := write_then_read (parentSegs p) s.data (getPropertyName p) v d hd
  simp only [getConfigProperty, hdata, hr]
  rw [← hdata]

/-- Witness for `set_then_get_returns_value`: the spec's end-to-end scenario
`setConfigProperty('hello.world', 'hi')` then reading it back. -/
theorem set_then_get_returns_value_witness :
    getConfigProperty ⟨0, .obj [("hello", .obj [("world", .str "hi")])], []⟩ "hello.world" =
      .ok (⟨0, .obj [("hello", .obj [("world", .str "hi")])], []⟩, .str "hi") :=
  set_then_get_returns_value (createConfig 0) [] "hello.world" (.str "hi")
    ⟨0, .obj [("hello", .obj [("world", .str "hi")])], []⟩ [] [] rfl

/-- **C3, counterexample.**  The claim says every never-written path reads as
absent.  But after writing `"a.b.c"`, the never-written path `"a.b"` reads
back as the auto-created intermediate mapping `{c: 7}`, not the absent
marker. -/
theorem unwritten_path_not_absent :
    setConfigProperty (createConfig 0) [] "a.b.c" (.num 7) =
      .ok (⟨0, .obj [("a", .obj [("b", .obj [("c", .num 7)])])], []⟩, [], []) ∧
    (getConfigProperty ⟨0, .obj [("a", .obj [("b", .obj [("c", .num 7)])])], []⟩
        "a.b").map Prod.snd = .ok (.obj [("c", .num 7)]) ∧
    JSVal.obj [("c", .num 7)] ≠ .undefined := by
  refine ⟨rfl, rfl, ?_⟩
  intro h
  exact JSVal.noConfusion h

/-- **C3, amended.**  On a fresh store (no writes at all), every path reads
as the absent marker `undefined`, and a missing intermediate segment never
makes the read fail (the read auto-creates the intermediates instead). -/
theorem fresh_store_reads_absent (sid : Nat) (p : String) :
    (getConfigProperty (createConfig sid) p).map Prod.snd = .ok .undefined := by
  obtain ⟨d, hd⟩ := read_empty (parentSegs p) (getPropertyName p)
  simp [getConfigProperty, createConfig, hd, Except.map]

/-- **C7.**  Registering the same (observer, path) pair twice without an
intervening unregistration: the second `observeConfig` call is a strict
no-op (same store, same heap), and the path's handler sequence holds the
first-registered handler `h1`, not `h2`. -/
theorem observeConfig_idempotent (s : Store) (hp : Heap) (o : Nat) (p : String)
    (h1 h2 : Handler) (l : List Handler)
    (hl : alookup s.observerList p = some l)
    (hi : getObserverIndex hp o s.id p = none) :
    observeConfig (observeConfig s hp o p h1).1 (observeConfig s hp o p h1).2 o p h2 =
      ((observeConfig s hp o p h1).1, (observeConfig s hp o p h1).2) ∧
    alookup (observeConfig s hp o p h1).1.observerList p = some (l ++ [h1]) := by
  have hreg := observeConfig_register s hp o p h1 l hl hi
  rw [hreg]
  refine ⟨?_, ?_⟩
  · apply observeConfig_noop _ _ _ _ _ (l ++ [h1]) l.length
    · exact alookup_astore_self _ _ _
    · rw [getObserverIndex_setObserverIndex]
      simp
  · exact alookup_astore_self _ _ _

/-- Witness for `observeConfig_idempotent` on a concrete store with an empty
handler sequence for `"p"`. -/
theorem observeConfig_idempotent_witness :
    observeConfig (observeConfig ⟨0, .obj [], [("p", [])]⟩ [] 1 "p" ⟨1, []⟩).1
        (observeConfig ⟨0, .obj [], [("p", [])]⟩ [] 1 "p" ⟨1, []⟩).2 1 "p" ⟨2, []⟩ =
      ((observeConfig ⟨0, .obj [], [("p", [])]⟩ [] 1 "p" ⟨1, []⟩).1,
        (observeConfig ⟨0, .obj [], [("p", [])]⟩ [] 1 "p" ⟨1, []⟩).2) ∧
    alookup (observeConfig ⟨0, .obj [], [("p", [])]⟩ [] 1 "p" ⟨1, []⟩).1.observerList
        "p" = some [⟨1, []⟩] :=
  observeConfig_idempotent ⟨0, .obj [], [("p", [])]⟩ [] 1 "p" ⟨1, []⟩ ⟨2, []⟩ [] rfl rfl

/-- **C8.**  The stale-index fragility, exactly as the spec documents it.
Two observers on `"p"`: after `unobserveConfig(o1)` removes the front
handler, `o2`'s recorded index `1` points one past its handler in the
shrunken sequence `[h2]`, so `unobserveConfig(o2)` splices nothing and `h2`
wrongly stays registered.  Three observers: the same stale index `1` makes
`unobserveConfig(o2)` remove `o3`'s handler `h3` instead of `h2`. -/
theorem unobserveConfig_stale_index :
    (let st1 := observeConfig (createConfig 0) [] 1 "p" ⟨1, []⟩
     let st2 := observeConfig st1.1 st1.2 2 "p" ⟨2, []⟩
     let st3 := unobserveConfig st2.1 st2.2 1 "p"
     let st4 := unobserveConfig st3.1 st3.2 2 "p"
     getObserverIndex st3.2 2 0 "p" = some 1 ∧
     alookup st3.1.observerList "p" = some [⟨2, []⟩] ∧
     alookup st4.1.observerList "p" = some [⟨2, []⟩]) ∧
    (let t1 := observeConfig (createConfig 0) [] 1 "p" ⟨1, []⟩
     let t2 := observeConfig t1.1 t1.2 2 "p" ⟨2, []⟩
     let t3 := observeConfig t2.1 t2.2 3 "p" ⟨3, []⟩
     let t4 := unobserveConfig t3.1 t3.2 1 "p"
     let t5 := unobserveConfig t4.1 t4.2 2 "p"
     alookup t4.1.observerList "p" = some [⟨2, []⟩, ⟨3, []⟩] ∧
     alookup t5.1.observerList "p" = some [⟨2, []⟩]) :=
  ⟨⟨rfl, rfl, rfl⟩, rfl, rfl⟩

/-- **C10.**  After `setConfigProperty('a', 5)` stores a primitive at an
intermediate position, both `getConfigProperty('a.b.c')` and
`setConfigProperty('a.b.c', 7)` throw a strict-mode `TypeError` while trying
to create a property on the primitive `5`, instead of returning absent or
storing the value. -/
theorem primitive_intermediate_type_error :
    (setConfigProperty (createConfig 0) [] "a" (.num 5)).map (fun r => r.1) =
      .ok ⟨0, .obj [("a", .num 5)], []⟩ ∧
    getConfigProperty ⟨0, .obj [("a", .num 5)], []⟩ "a.b.c" = .error .typeError ∧
    setConfigProperty ⟨0, .obj [("a", .num 5)], []⟩ [] "a.b.c" (.num 7) =
      .error .typeError :=
  ⟨rfl, rfl, rfl⟩

/-- The complete log of one successful `setConfigProperty`: exactly the
handler sequence registered for the written path, reversed, each entry paired
with the record `(path, value)`. -/
theorem set_ok_log (s : Store) (hp : Heap) (p : String) (v : JSVal) (s' : Store)
    (hp' : Heap) (log : List CallRecord)
    (h : setConfigProperty s hp p v = .ok (s', hp', log)) :
    log = ((alookup s.observerList p).getD []).reverse.map (fun hh => (hh.hid, p, v)) := by
  obtain ⟨d, hd, hnot⟩ := set_ok_parts s hp p v s' hp' log h
  have hlog : log = (notify { s with data := d } hp p v).2.2 := by rw [← hnot]
  rw [hlog, notify_log]

/-- **C4, counterexample.**  The claim says that after `unobserveConfig(o, p)`
no further calls occur for that pair.  Concretely: `o1` and `o2` observe
`"p"`; `o1` unregisters (shifting `o2`'s handler while `o2`'s recorded index
goes stale); `o2` unregisters, which splices nothing; a subsequent write to
`"p"` still invokes `o2`'s handler (identity 2) once. -/
theorem set_after_unobserve_still_calls :
    (let st1 := observeConfig (createConfig 0) [] 1 "p" ⟨1, []⟩
     let st2 := observeConfig st1.1 st1.2 2 "p" ⟨2, []⟩
     let st3 := unobserveConfig st2.1 st2.2 1 "p"
     let st4 := unobserveConfig st3.1 st3.2 2 "p"
     (setConfigProperty st4.1 st4.2 "p" (.num 7)).map (fun r => r.2.2) =
       .ok [(2, "p", .num 7)]) :=
  rfl

/-- **C4, amended.**  (i) While a handler with identity `hid` occurs exactly
once in the sequence registered for `p`, every completing
`setConfigProperty(p, v)` invokes it exactly once, with the record
`(p, v)`.  (ii) A write to a path `q` whose sequence holds no handler with
identity `hid` never invokes it — in particular ancestor/descendant paths
never propagate.  (iii) After `unobserveConfig(o, p)`, *provided* `o`'s
recorded index still points at its own handler `h` (no earlier slot was
removed since registration), a later write to `p` no longer invokes `h`. -/
theorem observer_notification_amended :
    (∀ (s : Store) (hp : Heap) (p : String) (v : JSVal) (l : List Handler) (hid : Nat)
        (s' : Store) (hp' : Heap) (log : List CallRecord),
        alookup s.observerList p = some l →
        l.countP (fun hh => hh.hid == hid) = 1 →
        setConfigProperty s hp p v = .ok (s', hp', log) →
        log.countP (fun r => r.1 == hid) = 1 ∧
          ∀ r ∈ log, r.1 = hid → r = (hid, p, v)) ∧
    (∀ (s : Store) (hp : Heap) (q : String) (v : JSVal) (hid : Nat)
        (s' : Store) (hp' : Heap) (log : List CallRecord),
        ((alookup s.observerList q).getD []).countP (fun hh => hh.hid == hid) = 0 →
        setConfigProperty s hp q v = .ok (s', hp', log) →
        ∀ r ∈ log, r.1 ≠ hid) ∧
    (∀ (s : Store) (hp : Heap) (o : Nat) (p : String) (l : List Handler) (i : Nat)
        (h : Handler) (v : JSVal) (s' : Store) (hp' : Heap) (log : List CallRecord),
        alookup s.observerList p = some l →
        getObserverIndex hp o s.id p = some i →
        l[i]? = some h →
        l.countP (fun hh => hh.hid == h.hid) = 1 →
        setConfigProperty (unobserveConfig s hp o p).1 (unobserveConfig s hp o p).2 p v =
          .ok (s', hp', log) →
        ∀ r ∈ log, r.1 ≠ h.hid) := by
  refine ⟨?_, ?_, ?_⟩
  · intro s hp p v l hid s' hp' log hl hcount hset
    have hlog := set_ok_log s hp p v s' hp' log hset
    rw [hl, Option.getD_some] at hlog
    constructor
    · rw [hlog, List.countP_map, List.countP_reverse]
      exact hcount
    · intro r hr hrhid
      rw [hlog] at hr
      simp only [List.mem_map, List.mem_reverse] at hr
      obtain ⟨hh, hmem, rfl⟩ := hr
      have : hh.hid = hid := hrhid
      rw [this]
  · intro s hp q v hid s' hp' log hzero hset r hr hcontra
    have hlog := set_ok_log s hp q v s' hp' log hset
    rw [hlog] at hr
    simp only [List.mem_map, List.mem_reverse] at hr
    obtain ⟨hh, hmem, rfl⟩ := hr
    have hhid : hh.hid = hid := hcontra
    have hpos : 0 < ((alookup s.observerList q).getD []).countP
        (fun hh2 => hh2.hid == hid) :=
      List.countP_pos_iff.mpr ⟨hh, hmem, by simp [hhid]⟩
    rw [hzero] at hpos
    exact absurd hpos (by simp)
  · intro s hp o p l i h v s' hp' log hl hi hgeti hcount hset r hr hcontra
    have hrem := unobserveConfig_remove s hp o p l i hl hi
    rw [hrem] at hset
    have hlog := set_ok_log _ _ p v s' hp' log hset
    simp only [alookup_astore_self, Option.getD_some] at hlog
    rw [hlog] at hr
    simp only [List.mem_map, List.mem_reverse] at hr
    obtain ⟨hh, hmem, rfl⟩ := hr
    have hhid : hh.hid = h.hid := hcontra
    have hpos : 0 < (l.eraseIdx i).countP (fun hh2 => hh2.hid == h.hid) :=
      List.countP_pos_iff.mpr ⟨hh, hmem, by simp [hhid]⟩
    have hzero : (l.eraseIdx i).countP (fun hh2 => hh2.hid == h.hid) = 0 :=
      countP_eraseIdx_zero _ l i h hgeti (by simp) hcount
    rw [hzero] at hpos
    exact absurd hpos (by simp)

/-- Witness for `observer_notification_amended`: part (i) on a store whose
`"p"` sequence is one handler of identity 1; part (ii) writing the
unobserved path `"q"` on the same store; part (iii) on two observers where
`o1`'s index 0 is still accurate, so its handler (identity 1) is not called
after its own unregistration. -/
theorem observer_notification_amended_witness :
    (([(1, "p", JSVal.num 3)] : List CallRecord).countP (fun r => r.1 == 1) = 1 ∧
      ∀ r ∈ ([(1, "p", JSVal.num 3)] : List CallRecord), r.1 = 1 →
        r = (1, "p", JSVal.num 3)) ∧
    (∀ r ∈ ([] : List CallRecord), r.1 ≠ 1) ∧
    (∀ r ∈ ([(2, "p", JSVal.num 3)] : List CallRecord), r.1 ≠ 1) :=
  ⟨observer_notification_amended.1 ⟨0, .obj [], [("p", [⟨1, []⟩])]⟩ [] "p" (.num 3)
      [⟨1, []⟩] 1 ⟨0, .obj [("p", .num 3)], [("p", [⟨1, []⟩])]⟩ [] [(1, "p", .num 3)]
      rfl rfl rfl,
    observer_notification_amended.2.1 ⟨0, .obj [], [("p", [⟨1, []⟩])]⟩ [] "q" (.num 3)
      1 ⟨0, .obj [("q", .num 3)], [("p", [⟨1, []⟩])]⟩ [] [] rfl rfl,
    observer_notification_amended.2.2 ⟨0, .obj [], [("p", [⟨1, []⟩, ⟨2, []⟩])]⟩
      [(1, [(0, [("p", some 0)])]), (2, [(0, [("p", some 1)])])] 1 "p"
      [⟨1, []⟩, ⟨2, []⟩] 0 ⟨1, []⟩ (.num 3)
      ⟨0, .obj [("p", .num 3)], [("p", [⟨2, []⟩])]⟩
      [(1, [(0, [("p", none)])]), (2, [(0, [("p", some 1)])])] [(2, "p", .num 3)]
      rfl rfl rfl rfl rfl⟩

/-- **C5.**  With `o1` registered first and `o2` second on the same path, a
single completing `setConfigProperty` invokes `o2`'s handler before `o1`'s:
the first two log entries are `h2`'s call, then `h1`'s. -/
theorem notify_reverse_registration_order (s : Store) (hp : Heap) (o1 o2 : Nat)
    (p : String) (h1 h2 : Handler) (l : List Handler) (v : JSVal)
    (s' : Store) (hp' : Heap) (log : List CallRecord)
    (hl : alookup s.observerList p = some l)
    (hi1 : getObserverIndex hp o1 s.id p = none)
    (hi2 : getObserverIndex (observeConfig s hp o1 p h1).2 o2
      (observeConfig s hp o1 p h1).1.id p = none)
    (hset : setConfigProperty
      (observeConfig (observeConfig s hp o1 p h1).1 (observeConfig s hp o1 p h1).2
        o2 p h2).1
      (observeConfig (observeConfig s hp o1 p h1).1 (observeConfig s hp o1 p h1).2
        o2 p h2).2 p v = .ok (s', hp', log)) :
    log.take 2 = [(h2.hid, p, v), (h1.hid, p, v)] := by
  have hreg1 := observeConfig_register s hp o1 p h1 l hl hi1
  rw [hreg1] at hi2 hset
  have hreg2 := observeConfig_register _ _ o2 p h2 (l ++ [h1])
    (alookup_astore_self _ _ _) hi2
  rw [hreg2] at hset
  have hlog := set_ok_log _ _ _ _ _ _ _ hset
  simp only [alookup_astore_self, Option.getD_some] at hlog
  rw [hlog]
  simp

/-- Witness for `notify_reverse_registration_order` on the fresh scenario:
two observers register on `"p"`, a write logs `h2` first, `h1` second. -/
theorem notify_reverse_registration_order_witness :
    List.take 2 [(2, "p", JSVal.num 3), (1, "p", JSVal.num 3)] =
      [(2, "p", JSVal.num 3), (1, "p", JSVal.num 3)] :=
  notify_reverse_registration_order ⟨0, .obj [], [("p", [])]⟩ [] 1 2 "p" ⟨1, []⟩ ⟨2, []⟩
    [] (.num 3) ⟨0, .obj [("p", .num 3)], [("p", [⟨1, []⟩, ⟨2, []⟩])]⟩
    [(1, [(0, [("p", some 0)])]), (2, [(0, [("p", some 1)])])]
    [(2, "p", .num 3), (1, "p", .num 3)] rfl rfl rfl rfl

/-- **C6.**  Notification iterates over a snapshot taken at write time:
whatever the handler bodies do to the live registration state during the
round (unregistering themselves or others included), every handler that was
registered for the path when the write happened gets its call. -/
theorem notify_snapshot_all_called (s : Store) (hp : Heap) (p : String) (v : JSVal)
    (l : List Handler) (s' : Store) (hp' : Heap) (log : List CallRecord)
    (hl : alookup s.observerList p = some l)
    (hset : setConfigProperty s hp p v = .ok (s', hp', log)) :
    ∀ h ∈ l, (h.hid, p, v) ∈ log := by
  intro h hmem
  have hlog := set_ok_log s hp p v s' hp' log hset
  rw [hl, Option.getD_some] at hlog
  rw [hlog]
  simp only [List.mem_map, List.mem_reverse]
  exact ⟨h, hmem, rfl⟩

/-- Witness for `notify_snapshot_all_called`: handler 2 unregisters itself
during its own invocation (it runs first, by reverse order), yet handler 1 —
already scheduled in the same round — is still called. -/
theorem notify_snapshot_all_called_witness :
    ((1 : Nat), "p", JSVal.num 9) ∈
      ([(2, "p", JSVal.num 9), (1, "p", JSVal.num 9)] : List CallRecord) :=
  notify_snapshot_all_called ⟨0, .obj [], [("p", [⟨1, []⟩, ⟨2, [.unobserve 2 "p"]⟩])]⟩
    [(1, [(0, [("p", some 0)])]), (2, [(0, [("p", some 1)])])] "p" (.num 9)
    [⟨1, []⟩, ⟨2, [.unobserve 2 "p"]⟩]
    ⟨0, .obj [("p", .num 9)], [("p", [⟨1, []⟩])]⟩
    [(1, [(0, [("p", some 0)])]), (2, [(0, [("p", none)])])]
    [(2, "p", .num 9), (1, "p", .num 9)] rfl rfl ⟨1, []⟩ (List.mem_cons_self _ _)

/-! ### Instance isolation machinery -/

/-- Two heaps agree on one store instance: every observer's recorded index
for every path, as read through that instance's `'bc' + _id` key, is the
same. -/
def heapAgree (sid : Nat) (h1 h2 : Heap) : Prop :=
  ∀ (o : Nat) (p : String), getObserverIndex h1 o sid p = getObserverIndex h2 o sid p

theorem heapAgree_refl (sid : Nat) (hp : Heap) : heapAgree sid hp hp :=
  fun _ _ => rfl

theorem heapAgree_symm {sid : Nat} {h1 h2 : Heap} (h : heapAgree sid h1 h2) :
    heapAgree sid h2 h1 :=
  fun o p => (h o p).symm

theorem heapAgree_trans {sid : Nat} {h1 h2 h3 : Heap} (ha : heapAgree sid h1 h2)
    (hb : heapAgree sid h2 h3) : heapAgree sid h1 h3 :=
  fun o p => (ha o p).trans (hb o p)

/-- An index write for one instance is invisible to every other instance. -/
theorem setObserverIndex_agree_other (hp : Heap) (o sid : Nat) (p : String)
    (i : Option Nat) (sid' : Nat) (hne : sid' ≠ sid) :
    heapAgree sid' (setObserverIndex hp o sid p i) hp := by
  intro o' p'
  rw [getObserverIndex_setObserverIndex]
  simp [hne]

theorem observeConfig_id (s : Store) (hp : Heap) (o : Nat) (p : String) (h : Handler) :
    (observeConfig s hp o p h).1.id = s.id := by
  simp only [observeConfig]
  split <;> simp [getObserverList_id]

theorem unobserveConfig_agree_other (s : Store) (hp : Heap) (o : Nat) (p : String)
    (sid' : Nat) (hne : sid' ≠ s.id) :
    heapAgree sid' (unobserveConfig s hp o p).2 hp := by
  simp only [unobserveConfig]
  split
  · exact setObserverIndex_agree_other hp o _ p none sid'
      (by rw [getObserverList_id]; exact hne)
  · exact heapAgree_refl _ _

theorem observeConfig_agree_other (s : Store) (hp : Heap) (o : Nat) (p : String)
    (h : Handler) (sid' : Nat) (hne : sid' ≠ s.id) :
    heapAgree sid' (observeConfig s hp o p h).2 hp := by
  simp only [observeConfig]
  split
  · exact setObserverIndex_agree_other hp o _ p _ sid'
      (by rw [getObserverList_id]; exact hne)
  · exact heapAgree_refl _ _

theorem foldl_runAct_agree_other (acts : List HandlerAct) :
    ∀ (st : Store × Heap) (sid' : Nat), sid' ≠ st.1.id →
      heapAgree sid' (acts.foldl runAct st).2 st.2 := by
  induction acts with
  | nil => intro st sid' _; exact heapAgree_refl _ _
  | cons a rest ih =>
    intro st sid' hne
    rw [List.foldl_cons]
    have h1 : sid' ≠ (runAct st a).1.id := by rw [runAct_id]; exact hne
    refine heapAgree_trans (ih _ sid' h1) ?_
    cases a with
    | unobserve o p => exact unobserveConfig_agree_other st.1 st.2 o p sid' hne

theorem notifyLoop_agree_other (L : List Handler) :
    ∀ (s : Store) (hp : Heap) (p : String) (v : JSVal) (sid' : Nat), sid' ≠ s.id →
      heapAgree sid' (notifyLoop L s hp p v).2.1 hp := by
  induction L with
  | nil => intro s hp p v sid' _; exact heapAgree_refl _ _
  | cons h rest ih =>
    intro s hp p v sid' hne
    simp only [notifyLoop]
    have hst1 : sid' ≠ (h.acts.foldl runAct (s, hp)).1.id := by
      rw [foldl_runAct_id]; exact hne
    exact heapAgree_trans (ih _ _ p v sid' hst1)
      (foldl_runAct_agree_other h.acts (s, hp) sid' hne)

theorem notify_agree_other (s : Store) (hp : Heap) (p : String) (v : JSVal)
    (sid' : Nat) (hne : sid' ≠ s.id) :
    heapAgree sid' (notify s hp p v).2.1 hp := by
  simp only [notify]
  split
  · exact heapAgree_refl _ _
  · exact notifyLoop_agree_other _ _ _ _ _ _ hne

theorem getConfigProperty_ok_id (s : Store) (p : String) (s2 : Store) (val : JSVal)
    (h : getConfigProperty s p = .ok (s2, val)) : s2.id = s.id := by
  simp only [getConfigProperty] at h
  split at h
  · simp at h
  · simp only [Except.ok.injEq, Prod.mk.injEq] at h
    rw [← h.1]

theorem setConfigProperty_ok_id (s : Store) (hp : Heap) (p : String) (v : JSVal)
    (s' : Store) (hp' : Heap) (log : List CallRecord)
    (h : setConfigProperty s hp p v = .ok (s', hp', log)) : s'.id = s.id := by
  obtain ⟨d, _, hnot⟩ := set_ok_parts s hp p v s' hp' log h
  have : s' = (notify { s with data := d } hp p v).1 := by rw [← hnot]
  rw [this, notify_id]

theorem setConfigProperty_ok_agree_other (s : Store) (hp : Heap) (p : String)
    (v : JSVal) (s' : Store) (hp' : Heap) (log : List CallRecord) (sid' : Nat)
    (hne : sid' ≠ s.id)
    (h : setConfigProperty s hp p v = .ok (s', hp', log)) :
    heapAgree sid' hp' hp := by
  obtain ⟨d, _, hnot⟩ := set_ok_parts s hp p v s' hp' log h
  have : hp' = (notify { s with data := d } hp p v).2.1 := by rw [← hnot]
  rw [this]
  exact notify_agree_other _ _ _ _ _ hne

theorem applyOp_id (s : Store) (hp : Heap) (op : Op) : (applyOp s hp op).1.id = s.id := by
  cases op with
  | get p =>
    simp only [applyOp]
    split
    · next s2 val heq => exact getConfigProperty_ok_id s p s2 val heq
    · rfl
  | set p v =>
    simp only [applyOp]
    split
    · next r heq => exact setConfigProperty_ok_id s hp p v r.1 r.2.1 r.2.2 heq
    · rfl
  | obs o p h => exact observeConfig_id s hp o p h
  | unobs o p => exact unobserveConfig_id s hp o p

theorem applyOp_agree_other (s : Store) (hp : Heap) (op : Op) (sid' : Nat)
    (hne : sid' ≠ s.id) : heapAgree sid' (applyOp s hp op).2.1 hp := by
  cases op with
  | get p =>
    simp only [applyOp]
    split
    · exact heapAgree_refl _ _
    · exact heapAgree_refl _ _
  | set p v =>
    simp only [applyOp]
    split
    · next r heq =>
      exact setConfigProperty_ok_agree_other s hp p v r.1 r.2.1 r.2.2 sid' hne heq
    · exact heapAgree_refl _ _
  | obs o p h => exact observeConfig_agree_other s hp o p h sid' hne
  | unobs o p => exact unobserveConfig_agree_other s hp o p sid' hne

theorem applyOps_agree_other (ops : List Op) :
    ∀ (s : Store) (hp : Heap) (sid' : Nat), sid' ≠ s.id →
      heapAgree sid' (applyOps s hp ops).2.1 hp := by
  induction ops with
  | nil => intro s hp sid' _; exact heapAgree_refl _ _
  | cons op rest ih =>
    intro s hp sid' hne
    simp only [applyOps]
    have h1 : sid' ≠ (applyOp s hp op).1.id := by rw [applyOp_id]; exact hne
    exact heapAgree_trans (ih _ _ sid' h1) (applyOp_agree_other s hp op sid' hne)

/-- `unobserveConfig` on one store behaves identically under heaps that agree
on that store's instance, and keeps them agreeing. -/
theorem unobserveConfig_congr (s : Store) (hp1 hp2 : Heap) (o : Nat) (p : String)
    (hA : heapAgree s.id hp1 hp2) :
    (unobserveConfig s hp1 o p).1 = (unobserveConfig s hp2 o p).1 ∧
    heapAgree s.id (unobserveConfig s hp1 o p).2 (unobserveConfig s hp2 o p).2 := by
  have hid1 : getObserverIndex hp1 o (getObserverList s p).1.id p
      = getObserverIndex hp2 o (getObserverList s p).1.id p := by
    rw [getObserverList_id]
    exact hA o p
  simp only [unobserveConfig, hid1]
  cases hidx : getObserverIndex hp2 o (getObserverList s p).1.id p with
  | none => exact ⟨rfl, hA⟩
  | some i =>
    refine ⟨rfl, ?_⟩
    intro o' p'
    rw [getObserverIndex_setObserverIndex, getObserverIndex_setObserverIndex]
    by_cases hcond : o' = o ∧ s.id = (getObserverList s p).1.id ∧ p' = p
    · rw [if_pos hcond, if_pos hcond]
    · rw [if_neg hcond, if_neg hcond]
      exact hA o' p'

/-- As `unobserveConfig_congr`, for `observeConfig`. -/
theorem observeConfig_congr (s : Store) (hp1 hp2 : Heap) (o : Nat) (p : String)
    (h : Handler) (hA : heapAgree s.id hp1 hp2) :
    (observeConfig s hp1 o p h).1 = (observeConfig s hp2 o p h).1 ∧
    heapAgree s.id (observeConfig s hp1 o p h).2 (observeConfig s hp2 o p h).2 := by
  have hid1 : getObserverIndex hp1 o (getObserverList s p).1.id p
      = getObserverIndex hp2 o (getObserverList s p).1.id p := by
    rw [getObserverList_id]
    exact hA o p
  simp only [observeConfig, hid1]
  cases hidx : getObserverIndex hp2 o (getObserverList s p).1.id p with
  | some i => exact ⟨rfl, hA⟩
  | none =>
    refine ⟨rfl, ?_⟩
    intro o' p'
    rw [getObserverIndex_setObserverIndex, getObserverIndex_setObserverIndex]
    by_cases hcond : o' = o ∧ s.id = (getObserverList s p).1.id ∧ p' = p
    · rw [if_pos hcond, if_pos hcond]
    · rw [if_neg hcond, if_neg hcond]
      exact hA o' p'

theorem runAct_congr (st1 st2 : Store × Heap) (a : HandlerAct) (hs : st1.1 = st2.1)
    (hA : heapAgree st1.1.id st1.2 st2.2) :
    (runAct st1 a).1 = (runAct st2 a).1 ∧
    heapAgree st1.1.id (runAct st1 a).2 (runAct st2 a).2 := by
  cases a with
  | unobserve o p =>
    obtain ⟨s1, h1⟩ := st1
    obtain ⟨s2, h2⟩ := st2
    dsimp only at hs hA ⊢
    subst hs
    exact unobserveConfig_congr s1 h1 h2 o p hA

theorem foldl_runAct_congr (acts : List HandlerAct) :
    ∀ (st1 st2 : Store × Heap), st1.1 = st2.1 → heapAgree st1.1.id st1.2 st2.2 →
      (acts.foldl runAct st1).1 = (acts.foldl runAct st2).1 ∧
      heapAgree st1.1.id (acts.foldl runAct st1).2 (acts.foldl runAct st2).2 := by
  induction acts with
  | nil => intro st1 st2 hs hA; exact ⟨hs, hA⟩
  | cons a rest ih =>
    intro st1 st2 hs hA
    rw [List.foldl_cons, List.foldl_cons]
    obtain ⟨hs1, hA1⟩ := runAct_congr st1 st2 a hs hA
    have hid : (runAct st1 a).1.id = st1.1.id := runAct_id st1 a
    have hrec := ih (runAct st1 a) (runAct st2 a) hs1 (by rw [hid]; exact hA1)
    rw [hid] at hrec
    exact hrec

theorem notifyLoop_congr (L : List Handler) :
    ∀ (s : Store) (hp1 hp2 : Heap) (p : String) (v : JSVal), heapAgree s.id hp1 hp2 →
      (notifyLoop L s hp1 p v).1 = (notifyLoop L s hp2 p v).1 ∧
      heapAgree s.id (notifyLoop L s hp1 p v).2.1 (notifyLoop L s hp2 p v).2.1 := by
  induction L with
  | nil => intro s hp1 hp2 p v hA; exact ⟨rfl, hA⟩
  | cons h rest ih =>
    intro s hp1 hp2 p v hA
    simp only [notifyLoop]
    obtain ⟨hs1, hA1⟩ := foldl_runAct_congr h.acts (s, hp1) (s, hp2) rfl hA
    have hid : (h.acts.foldl runAct (s, hp1)).1.id = s.id := foldl_runAct_id _ _
    rw [← hs1]
    have hrec := ih (h.acts.foldl runAct (s, hp1)).1 (h.acts.foldl runAct (s, hp1)).2
      (h.acts.foldl runAct (s, hp2)).2 p v (by rw [hid]; exact hA1)
    rw [hid] at hrec
    exact hrec

theorem notify_congr (s : Store) (hp1 hp2 : Heap) (p : String) (v : JSVal)
    (hA : heapAgree s.id hp1 hp2) :
    (notify s hp1 p v).1 = (notify s hp2 p v).1 ∧
    heapAgree s.id (notify s hp1 p v).2.1 (notify s hp2 p v).2.1 := by
  simp only [notify]
  cases hl : alookup s.observerList p with
  | none => exact ⟨rfl, hA⟩
  | some l => exact notifyLoop_congr l.reverse s hp1 hp2 p v hA

theorem applyOp_congr (s : Store) (hp1 hp2 : Heap) (op : Op)
    (hA : heapAgree s.id hp1 hp2) :
    (applyOp s hp1 op).1 = (applyOp s hp2 op).1 ∧
    heapAgree s.id (applyOp s hp1 op).2.1 (applyOp s hp2 op).2.1 ∧
    (applyOp s hp1 op).2.2 = (applyOp s hp2 op).2.2 := by
  cases op with
  | get p =>
    simp only [applyOp]
    cases hg : getConfigProperty s p with
    | error e => exact ⟨rfl, hA, rfl⟩
    | ok r =>
      obtain ⟨s2, val⟩ := r
      exact ⟨rfl, hA, rfl⟩
  | set p v =>
    simp only [applyOp, setConfigProperty]
    cases hw : getParentThenWrite s.data (parentSegs p) (getPropertyName p) v with
    | error e => exact ⟨rfl, hA, rfl⟩
    | ok d =>
      obtain ⟨h1, h2⟩ := notify_congr { s with data := d } hp1 hp2 p v hA
      refine ⟨h1, h2, ?_⟩
      rw [notify_log, notify_log]
  | obs o p h =>
    simp only [applyOp]
    obtain ⟨h1, h2⟩ := observeConfig_congr s hp1 hp2 o p h hA
    exact ⟨h1, h2, trivial⟩
  | unobs o p =>
    simp only [applyOp]
    obtain ⟨h1, h2⟩ := unobserveConfig_congr s hp1 hp2 o p hA
    exact ⟨h1, h2, trivial⟩

theorem applyOps_congr (ops : List Op) :
    ∀ (s : Store) (hp1 hp2 : Heap), heapAgree s.id hp1 hp2 →
      (applyOps s hp1 ops).1 = (applyOps s hp2 ops).1 ∧
      heapAgree s.id (applyOps s hp1 ops).2.1 (applyOps s hp2 ops).2.1 ∧
      (applyOps s hp1 ops).2.2 = (applyOps s hp2 ops).2.2 := by
  induction ops with
  | nil => intro s hp1 hp2 hA; exact ⟨rfl, hA, rfl⟩
  | cons op rest ih =>
    intro s hp1 hp2 hA
    simp only [applyOps]
    obtain ⟨h1, h2, h3⟩ := applyOp_congr s hp1 hp2 op hA
    have hid : (applyOp s hp1 op).1.id = s.id := applyOp_id s hp1 op
    rw [← h1]
    have hrec := ih (applyOp s hp1 op).1 (applyOp s hp1 op).2.1 (applyOp s hp2 op).2.1
      (by rw [hid]; exact h2)
    rw [hid] at hrec
    exact ⟨hrec.1, hrec.2.1, by rw [h3, hrec.2.2]⟩

/-- **C9.**  `createConfig` returns a brand-new instance with an empty tree
and empty registry; and instances are fully isolated: for stores with
distinct instance identifiers, any sequence of reads, writes, observe and
unobserve calls performed on one instance changes neither the resulting
store state nor the notification trace of any sequence of calls performed on
the other. -/
theorem createConfig_isolated :
    (∀ sid : Nat, createConfig sid = { id := sid, data := .obj [], observerList := [] }) ∧
    (∀ (s1 s2 : Store) (hp : Heap) (ops1 ops2 : List Op), s1.id ≠ s2.id →
      (applyOps s2 (applyOps s1 hp ops1).2.1 ops2).1 = (applyOps s2 hp ops2).1 ∧
      (applyOps s2 (applyOps s1 hp ops1).2.1 ops2).2.2 = (applyOps s2 hp ops2).2.2) := by
  refine ⟨fun _ => rfl, ?_⟩
  intro s1 s2 hp ops1 ops2 hne
  have hagree : heapAgree s2.id (applyOps s1 hp ops1).2.1 hp :=
    applyOps_agree_other ops1 s1 hp s2.id (Ne.symm hne)
  obtain ⟨ha, _, hc⟩ := applyOps_congr ops2 s2 _ hp hagree
  exact ⟨ha, hc⟩

/-- Witness for `createConfig_isolated`: the same observer identity 5
registers and writes on two distinct instances; running instance 0's calls
first changes nothing about instance 1's final store or notification
trace. -/
theorem createConfig_isolated_witness :
    (applyOps (createConfig 1)
        (applyOps (createConfig 0) [] [.obs 5 "p" ⟨1, []⟩, .set "p" (.num 1)]).2.1
        [.obs 5 "p" ⟨2, []⟩, .set "p" (.num 2)]).1 =
      (applyOps (createConfig 1) [] [.obs 5 "p" ⟨2, []⟩, .set "p" (.num 2)]).1 ∧
    (applyOps (createConfig 1)
        (applyOps (createConfig 0) [] [.obs 5 "p" ⟨1, []⟩, .set "p" (.num 1)]).2.1
        [.obs 5 "p" ⟨2, []⟩, .set "p" (.num 2)]).2.2 =
      (applyOps (createConfig 1) [] [.obs 5 "p" ⟨2, []⟩, .set "p" (.num 2)]).2.2 :=
  createConfig_isolated.2 (createConfig 0) (createConfig 1) []
    [.obs 5 "p" ⟨1, []⟩, .set "p" (.num 1)] [.obs 5 "p" ⟨2, []⟩, .set "p" (.num 2)]
    (by decide)

end BasicConfig
